import Mathlib

/-!
Shallow embedding of the jtbot ingestion/filter/dispatch pipeline
(source: src/jtbot.py).  Python strings are modelled as `List Char`
(`Str` below); machine time (`time.time()` / `datetime.now()`) is
modelled as `Int` seconds; the JSON-file side effects (`save_*`) are
pure persistence of the in-memory state and are not modelled.
`random.choice` / `random.randint` are modelled by threading explicit
entropy values (a `Nat` is reduced modulo the size of the sampled set,
which ranges over exactly the set the Python code samples from).
-/

/-- Python strings, modelled character by character. -/

abbrev Str := List Char

/-- The whitespace characters stripped by Python `str.strip()`
(restricted to the ASCII whitespace range, which is what the
repository's keyword inputs can contain). -/
def pySpace (c : Char) : Bool :=
  c == ' ' || c == '\t' || c == '\n' || c == '\r' || c == '\x0b' || c == '\x0c'

/-- Python `str.strip()`. -/
def pyStrip (s : Str) : Str :=
  ((s.dropWhile pySpace).reverse.dropWhile pySpace).reverse

/-- Python `str.lower()` (ASCII case folding; the pattern tables the
code lowercases are ASCII/CJK, where this agrees with Python). -/
def toLowerStr (s : Str) : Str := s.map Char.toLower

/-- Python `pat in s` (containment as a contiguous substring). -/
def containsSub (s pat : Str) : Bool :=
  match s with
  | [] => pat.isEmpty
  | _ :: rest => pat.isPrefixOf s || containsSub rest pat

/-- Fuel-driven worker for `replaceAll` (structural recursion so that
the kernel can evaluate it). -/
def replaceAllF : Nat → Str → Str → Str → Str
  | 0, s, _, _ => s
  | _ + 1, [], _, _ => []
  | f + 1, c :: rest, pat, rep =>
    if pat ≠ [] ∧ pat.isPrefixOf (c :: rest) then
      rep ++ replaceAllF f ((c :: rest).drop pat.length) pat rep
    else
      c :: replaceAllF f rest pat rep

/-- Python `s.replace(pat, rep)`: leftmost, non-overlapping. -/
def replaceAll (s pat rep : Str) : Str := replaceAllF s.length s pat rep

/-- First-match association-list lookup (a Python `dict` read; the
update below keeps keys unique, matching `dict` semantics). -/
def alistGet {κ : Type} [DecidableEq κ] {σ : Type} : List (κ × σ) → κ → Option σ
  | [], _ => none
  | (k, v) :: rest, key => if k = key then some v else alistGet rest key

/-- Insert-or-replace (a Python `dict` write). -/
def alistPut {κ : Type} [DecidableEq κ] {σ : Type} : List (κ × σ) → κ → σ → List (κ × σ)
  | [], key, val => [(key, val)]
  | (k, v) :: rest, key, val =>
    if k = key then (key, val) :: rest else (k, v) :: alistPut rest key val

/-- `cachetools.TTLCache` membership: an entry inserted at time `t`
with time-to-live `ttl` answers `key in cache` positively exactly while
`now < t + ttl`.  The capacity bound (`maxsize=10000`, evicting only
expired-then-least-recent entries) is not modelled: the statements here
concern the time window, not capacity pressure. -/
def cacheHas {κ : Type} [DecidableEq κ] (cache : List (κ × Int)) (ttl now : Int)
    (key : κ) : Bool :=
  match alistGet cache key with
  | none => false
  | some t => decide (now < t + ttl)

/-- `cache[key] = now` on a `TTLCache`. -/
def cacheAdd {κ : Type} [DecidableEq κ] (cache : List (κ × Int)) (key : κ)
    (now : Int) : List (κ × Int) :=
  alistPut cache key now

-- ===== KeywordManager (src/jtbot.py lines 248-288) =====

/-- One step of `KeywordManager.add_keywords`: the loop body run for a
single raw keyword, acting on (current keyword list, count added). -/
def addKwStep (acc : List Str × Nat) (raw : Str) : List Str × Nat :=
  let k := pyStrip raw
  if k.length > 10 then acc
  else if k ≠ [] ∧ k ∉ acc.1 then (acc.1 ++ [k], acc.2 + 1)
  else acc

/-- `KeywordManager.add_keywords`: returns the new keyword list and the
number of keywords actually added. -/
def addKeywords (kws : List Str) (batch : List Str) : List Str × Nat :=
  batch.foldl addKwStep (kws, 0)

/-- `KeywordManager.match`: lower-cases the text once and returns the
configured keywords whose lower-cased form is a substring. -/
def keywordMatch (keywords : List Str) (text : Str) : List Str :=
  if text = [] then []
  else
    let tl := toLowerStr text
    keywords.filter (fun k => containsSub tl (toLowerStr k))

-- ===== DMTemplateManager store (src/jtbot.py lines 1062-1103) =====

structure Template where
  id : Nat
  tmplType : String
  content : String
  created_at : String
deriving DecidableEq, Repr

/-- `DMTemplateManager.add_template`: the fresh id is
`len(self.templates) + 1`. -/
def addTemplate (ts : List Template) (tmplType content now : String) :
    List Template × Nat :=
  let tid := ts.length + 1
  (ts ++ [⟨tid, tmplType, content, now⟩], tid)

/-- `DMTemplateManager.remove_template`: pops the first template with
the given id. -/
def removeTemplate (ts : List Template) (tid : Nat) : List Template × Bool :=
  match ts with
  | [] => ([], false)
  | t :: rest =>
    if t.id = tid then (rest, true)
    else
      let r := removeTemplate rest tid
      (t :: r.1, r.2)

/-- Fold of `add_template` calls (add-only usage of the store). -/
def addTemplatesFrom (ts : List Template) : List (String × String × String) → List Template
  | [] => ts
  | (ty, c, now) :: rest => addTemplatesFrom (addTemplate ts ty c now).1 rest

-- ===== StatusClassifier (src/jtbot.py lines 723-980) =====

/-- `DMAccountManager.TRANSLATIONS` (a Python dict; insertion order is
preserved and is the order the replacements are applied in). -/
def TRANSLATIONS : List (Str × Str) :=
  [("ограничения".data, "limitations".data),
   ("заблокирован".data, "blocked".data),
   ("хорошие новости".data, "good news".data),
   ("нет ограничений".data, "no limits".data),
   ("正常".data, "all good".data),
   ("没有限制".data, "no limits".data),
   ("永久封禁".data, "permanently banned".data),
   ("限制".data, "limited".data),
   ("暂时".data, "temporarily".data),
   ("验证".data, "verification".data)]

/-- `DMAccountManager.translate_text`: lower-case, then apply each
translation in table order. -/
def translateText (text : Str) : Str :=
  TRANSLATIONS.foldl
    (fun acc p => if containsSub acc p.1 then replaceAll acc p.1 p.2 else acc)
    (toLowerStr text)

/-- `STATUS_PATTERNS['geo_warning']`. -/
def geoPatterns : List Str :=
  ["some phone numbers may trigger a harsh response".data,
   "phone numbers may trigger".data]

/-- `STATUS_PATTERNS['active']`. -/
def activePatterns : List Str :=
  ["good news, no limits are currently applied".data,
   "you\u0027re free as a bird".data,
   "no limits".data,
   "free as a bird".data,
   "no restrictions".data,
   "all good".data,
   "account is free".data,
   "not limited".data,
   "正常".data,
   "没有限制".data,
   "无限制".data]

/-- `STATUS_PATTERNS['restricted']`. -/
def restrictedPatterns : List Str :=
  ["account is now limited until".data,
   "limited until".data,
   "moderators have confirmed the report".data,
   "users found your messages annoying".data,
   "will be automatically released".data,
   "temporarily limited".data,
   "暂时限制".data,
   "临时限制".data]

/-- `STATUS_PATTERNS['spam']`. -/
def spamPatterns : List Str :=
  ["actions can trigger a harsh response from our anti-spam systems".data,
   "account was limited".data,
   "you will not be able to send messages".data,
   "违规".data]

/-- `STATUS_PATTERNS['banned']`. -/
def bannedPatterns : List Str :=
  ["permanently banned".data,
   "account has been frozen permanently".data,
   "permanently restricted".data,
   "banned permanently".data,
   "blocked for violations".data,
   "terms of service".data,
   "banned".data,
   "suspended".data,
   "永久限制".data,
   "永久封禁".data]

/-- `STATUS_PATTERNS['frozen']`. -/
def frozenPatterns : List Str :=
  ["wait".data,
   "pending".data,
   "verification".data,
   "等待".data,
   "审核中".data]

/-- One category check: any of the category's lower-cased literal
substrings is contained in the translated text. -/
def matchesCategory (translated : Str) (pats : List Str) : Bool :=
  pats.any (fun p => containsSub translated (toLowerStr p))

/-- `DMAccountManager.detect_status_from_spambot`: translated text is
tested against the categories in fixed priority order, first match
wins. -/
def detectStatusFromSpambot (message_text : Str) : String × Bool :=
  let translated := translateText message_text
  if matchesCategory translated geoPatterns then ("active", true)
  else if matchesCategory translated activePatterns then ("active", true)
  else if matchesCategory translated restrictedPatterns then ("restricted", false)
  else if matchesCategory translated spamPatterns then ("spam", false)
  else if matchesCategory translated bannedPatterns then ("banned", false)
  else if matchesCategory translated frozenPatterns then ("frozen", false)
  else ("unknown", false)

/-- The classifier as the spec describes it: a prioritized rule table
geo-notice → active → restricted → spam → banned → frozen, first match
wins, otherwise unknown.  Written from the spec's words, to be compared
with `detectStatusFromSpambot`. -/
def statusPriorityTable : List (List Str × String × Bool) :=
  [(geoPatterns, "active", true), (activePatterns, "active", true),
   (restrictedPatterns, "restricted", false), (spamPatterns, "spam", false),
   (bannedPatterns, "banned", false), (frozenPatterns, "frozen", false)]

/-- Spec-side classifier over the already-translated text. -/
def classifySpec (translated : Str) : String × Bool :=
  match statusPriorityTable.find? (fun c => matchesCategory translated c.1) with
  | some c => (c.2.1, c.2.2)
  | none => ("unknown", false)

-- ===== TemplateEngine (src/jtbot.py lines 1105-1162) =====

/-- The opening brace character of the Spintax variant syntax. -/
def lbrace : Char := '\x7b'

/-- The closing brace character of the Spintax variant syntax. -/
def rbrace : Char := '\x7d'

/-- Python `content.split('|')` on the inside of a variant span. -/
def splitPipe : Str → List Str
  | [] => [[]]
  | c :: rest =>
    if c = '|' then [] :: splitPipe rest
    else
      match splitPipe rest with
      | [] => [[c]]
      | s :: ss => (c :: s) :: ss

/-- Fuel-driven worker for `process_spintax`.  The regex
`\x7b([^\x7d]+)\x7d` matches an opening brace, one or more
non-closing-brace characters, and a closing brace; `re.sub` scans left
to right, resumes after each replacement, and leaves unmatched braces
in place.  The entropy list supplies one `random.choice` index per
resolved span. -/
def processSpintaxF : Nat → List Nat → Str → Str
  | 0, _, s => s
  | _ + 1, _, [] => []
  | f + 1, rand, c :: rest =>
    if c = lbrace then
      let content := rest.takeWhile (fun x => x ≠ rbrace)
      let after := rest.dropWhile (fun x => x ≠ rbrace)
      if content ≠ [] ∧ after ≠ [] then
        let parts := splitPipe content
        parts.getD ((rand.headD 0) % parts.length) [] ++
          processSpintaxF f rand.tail after.tail
      else c :: processSpintaxF f rand rest
    else c :: processSpintaxF f rand rest

/-- `DMTemplateManager.process_spintax`. -/
def processSpintax (rand : List Nat) (s : Str) : Str :=
  processSpintaxF s.length rand s

/-- The emoji set of `add_random_emoji`. -/
def EMOJIS : List Char := ['😊', '👋', '✨', '🌟', '💫', '🎯', '🔥', '💪', '👍', '🙏']

/-- `DMTemplateManager.add_random_emoji`: appends a space and one
random emoji. -/
def addRandomEmoji (r : Nat) (text : Str) : Str :=
  text ++ [' ', EMOJIS.getD (r % EMOJIS.length) ' ']

/-- The four zero-width characters of `add_invisible_timestamp`. -/
def ZERO_WIDTH : List Char := ['\u200B', '\u200C', '\u200D', '\u2060']

/-- The padding run built by `add_invisible_timestamp`:
`random.randint(6, 10)` characters (modelled as `6 + rLen % 5`), each an
independent `random.choice` from the zero-width alphabet. -/
def invisiblePad (rLen : Nat) (picks : List Nat) : Str :=
  (List.range (6 + rLen % 5)).map
    (fun i => ZERO_WIDTH.getD ((picks.getD i 0) % ZERO_WIDTH.length) ' ')

/-- `DMTemplateManager.add_invisible_timestamp`: appends the invisible
run at the very end of the text. -/
def addInvisibleTimestamp (rLen : Nat) (picks : List Nat) (text : Str) : Str :=
  text ++ invisiblePad rLen picks

/-- `DMTemplateManager.generate_text_variant`: Spintax substitution,
then optional emoji decoration, then optional invisible padding
(`use_synonym` is a no-op in the source). -/
def generateTextVariant (randSpin : List Nat) (rEmoji rLen : Nat) (picks : List Nat)
    (text : Str) (use_emoji use_timestamp use_synonym : Bool) : Str :=
  let result := processSpintax randSpin text
  let result := if use_emoji then addRandomEmoji rEmoji result else result
  let result := if use_timestamp then addInvisibleTimestamp rLen picks result
    else result
  result

-- ===== C6 =====

/-- An input containing both a geo-notice phrase and a banned phrase. -/
def geoBannedText : Str :=
  "Phone numbers may trigger a harsh response. You are banned permanently.".data

-- ===== C9 =====

/-- The keyword-set invariant maintained by `add_keywords`: entries are
unique, non-empty and at most 10 characters long. -/
def KwInv (l : List Str) : Prop :=
  (∀ k ∈ l, k.length ≤ 10) ∧ l.Nodup ∧ ([] : Str) ∉ l

-- ===== C10 =====

/-- A concrete run of the template store: add two templates, remove
template 1, add again.  `add_template` computes the fresh id as
`len(templates) + 1`, so the final add reassigns id 2. -/
def templStoreCex : List Template :=
  let s2 := addTemplatesFrom [] [("text", "a", ""), ("text", "b", "")]
  let s3 := (removeTemplate s2 1).1
  (addTemplate s3 "text" "c" "").1

-- ===== DMAccountManager (src/jtbot.py lines 793-931) =====

structure DMAccount where
  phone : String
  session_file : String
  name : String
  username : String
  user_id : Nat
  status : String
  can_send_dm : Bool
  connection_type : String
  daily_sent : Nat
  last_sent_date : Option String
  added_at : String
  updated_at : String
deriving DecidableEq, Repr

/-- The "for acc in accounts: if match: mutate; break" idiom: update
the first element satisfying the predicate, leave the rest alone. -/
def updateFirst {α : Type} (p : α → Bool) (f : α → α) : List α → List α
  | [] => []
  | x :: rest => if p x then f x :: rest else x :: updateFirst p f rest

/-- `DMAccountManager.get_account`: first account with the phone. -/
def getAccount (accs : List DMAccount) (phone : String) : Option DMAccount :=
  match accs with
  | [] => none
  | a :: rest => if a.phone = phone then some a else getAccount rest phone

/-- The fresh-account dictionary built by `add_account` when the phone
is not yet in the pool. -/
def mkFreshAccount (phone session_file name username : String) (user_id : Nat)
    (status connection_type now : String) : DMAccount :=
  { phone := phone, session_file := session_file, name := name,
    username := username, user_id := user_id, status := status,
    can_send_dm := status == "active", connection_type := connection_type,
    daily_sent := 0, last_sent_date := none, added_at := now, updated_at := now }

/-- `DMAccountManager.add_account`.  When the phone already exists the
existing entry is updated in place (note: `status` is overwritten but
`can_send_dm` is not recomputed); otherwise a fresh account is appended
with `can_send_dm = (status == 'active')`. -/
def addAccount (accs : List DMAccount) (phone session_file name username : String)
    (user_id : Nat) (status connection_type now : String) : List DMAccount :=
  if accs.any (fun a => a.phone == phone) then
    updateFirst (fun a => a.phone == phone)
      (fun a => { a with name := name, username := username, user_id := user_id,
                         status := status, connection_type := connection_type,
                         updated_at := now }) accs
  else
    accs ++ [mkFreshAccount phone session_file name username user_id
      status connection_type now]

/-- `DMAccountManager.update_account_status`: updates the first account
with the phone; `can_send` models the optional `can_send_dm` argument
(`none` = Python `None`, i.e. recompute from the status). -/
def updateAccountStatus (accs : List DMAccount) (phone status : String)
    (can_send : Option Bool) (now : String) : List DMAccount :=
  updateFirst (fun a => a.phone == phone)
    (fun a => { a with status := status,
                       can_send_dm := can_send.getD (status == "active"),
                       updated_at := now }) accs

/-- The lazy daily-counter reset performed inside
`get_available_accounts` / `increment_sent_count` when the stored date
is not today. -/
def resetIfStale (today : String) (a : DMAccount) : DMAccount :=
  if a.last_sent_date = some today then a
  else { a with daily_sent := 0, last_sent_date := some today }

/-- `DMAccountManager.get_available_accounts`: returns the mutated pool
(first component; the reset is a side effect on `self.accounts`) and
the list of available accounts (second component). -/
def getAvailableAccounts (accs : List DMAccount) (today : String)
    (daily_limit : Nat) : List DMAccount × List DMAccount :=
  match accs with
  | [] => ([], [])
  | a :: rest =>
    let r := getAvailableAccounts rest today daily_limit
    if a.status == "active" && a.can_send_dm then
      let a' := resetIfStale today a
      if a'.daily_sent < daily_limit then (a' :: r.1, a' :: r.2)
      else (a' :: r.1, r.2)
    else (a :: r.1, r.2)

/-- `DMAccountManager.increment_sent_count`: resets the counter first
if the date rolled over, then increments it by one. -/
def incrementSentCount (accs : List DMAccount) (phone today : String) :
    List DMAccount :=
  updateFirst (fun a => a.phone == phone)
    (fun a =>
      let a' := resetIfStale today a
      { a' with daily_sent := a'.daily_sent + 1}) accs

-- ===== DMRecordManager sent registry (src/jtbot.py lines 1231-1296) =====

/-- `DMRecordManager.is_user_sent`: true when the user was contacted
within the last `reset_hours` hours (time in seconds via `Int`; the
`str(user_id)` dict key is modelled by the id itself — `str` is
injective on integers). -/
def isUserSent (sent : List (Nat × Int)) (now : Int) (user_id : Nat)
    (reset_hours : Int) : Bool :=
  match alistGet sent user_id with
  | none => false
  | some t => !(decide (now - t > reset_hours * 3600))

/-- `DMRecordManager.add_sent_user`: records the send timestamp,
superseding any previous entry. -/
def addSentUser (sent : List (Nat × Int)) (user_id : Nat) (now : Int) :
    List (Nat × Int) :=
  alistPut sent user_id now

structure DMRecord where
  user_id : Nat
  username : Str
  dm_account : String
  template_id : Nat
  template_type : String
  status : String
  error : Option String
deriving DecidableEq, Repr

/-- `DMRecordManager.add_record`: appends and trims to the most recent
10000 entries. -/
def addDMRecord (records : List DMRecord) (r : DMRecord) : List DMRecord :=
  let rs := records ++ [r]
  if rs.length > 10000 then rs.drop (rs.length - 10000) else rs

/-- `DMSettingsManager.is_active_hour` at the current hour. -/
def isActiveHour (startH endH cur : Nat) : Bool :=
  decide (startH ≤ cur) && decide (cur < endH)

-- ===== JTBot._auto_send_dm (src/jtbot.py lines 5338-5495) =====

/-- The DM settings consulted by `_auto_send_dm`. -/
structure DMConfig where
  enabled : Bool
  active_hours_start : Nat
  active_hours_end : Nat
  daily_limit : Nat
deriving Repr

/-- The external world of one `_auto_send_dm` run: clock hour,
client-connectivity answers, the reconnect outcome, the transport
outcome, and the `random.choice` entropy for account and template. -/
structure DMEnv where
  currentHour : Nat
  connectedAtPick : String → Bool
  connectedAfterDelay : String → Bool
  reconnectOk : String → Bool
  sendOk : Bool
  pickAccount : Nat
  pickTemplate : Nat

/-- The mutable state touched by `_auto_send_dm`. -/
structure DMState where
  sentUsers : List (Nat × Int)
  accounts : List DMAccount
  templates : List Template
  dmRecords : List DMRecord

/-- Result of one `_auto_send_dm` run: the new state, whether the send
call was reached at all, and whether it succeeded. -/
structure AutoSendResult where
  state : DMState
  sendAttempted : Bool
  sendSucceeded : Bool

/-- Second half of `JTBot._auto_send_dm`, from the available-account
check on: pick account and template at random, apply the random delay,
re-check connectivity (one reconnect attempt), send, and record the
outcome (`st1` already carries the pool mutated by the availability
read). -/
def autoSendPick (env : DMEnv) (st1 : DMState) (avail : List DMAccount)
    (sender_id : Nat) (username : Str) (sendTime : Int) (today : String) :
    AutoSendResult :=
  match avail with
  | [] => ⟨st1, false, false⟩
  | a0 :: _ =>
    let acc := avail.getD (env.pickAccount % avail.length) a0
    if !(env.connectedAtPick acc.phone) then ⟨st1, false, false⟩
    else
      match st1.templates with
      | [] => ⟨st1, false, false⟩
      | t0 :: _ =>
        let tmpl := st1.templates.getD (env.pickTemplate % st1.templates.length) t0
        if !(env.connectedAfterDelay acc.phone) && !(env.reconnectOk acc.phone) then
          ⟨st1, false, false⟩
        else if env.sendOk then
          ⟨{ st1 with
               sentUsers := addSentUser st1.sentUsers sender_id sendTime,
               accounts := incrementSentCount st1.accounts acc.phone today,
               dmRecords := addDMRecord st1.dmRecords
                 ⟨sender_id, username, acc.phone, tmpl.id, tmpl.tmplType,
                   "success", none⟩ },
            true, true⟩
        else
          ⟨{ st1 with
               dmRecords := addDMRecord st1.dmRecords
                 ⟨sender_id, username, acc.phone, tmpl.id, tmpl.tmplType,
                   "failed", some "SEND_FAILED"⟩ },
            true, false⟩

/-- `JTBot._auto_send_dm` for a trigger by `sender_id`: the gate
sequence (enabled → username → sent-registry → active hours), then the
availability read (whose lazy reset mutates the pool) and the
pick/delay/send stage (`now` is the check instant, `sendTime` the
instant after the random delay at which a successful send is
recorded). -/
def autoSendDM (cfg : DMConfig) (env : DMEnv) (st : DMState) (sender_id : Nat)
    (username : Str) (now sendTime : Int) (today : String) : AutoSendResult :=
  if !cfg.enabled then ⟨st, false, false⟩
  else if username = [] then ⟨st, false, false⟩
  else if isUserSent st.sentUsers now sender_id 24 then ⟨st, false, false⟩
  else if !(isActiveHour cfg.active_hours_start cfg.active_hours_end
      env.currentHour) then ⟨st, false, false⟩
  else
    let pool := (getAvailableAccounts st.accounts today cfg.daily_limit).1
    let avail := (getAvailableAccounts st.accounts today cfg.daily_limit).2
    autoSendPick env { st with accounts := pool } avail sender_id username
      sendTime today

-- ===== C3 =====

/-- A stored account whose status/can-send pairing is about to go stale. -/
def staleAcc : DMAccount :=
  { phone := "p1", session_file := "s", name := "n", username := "u",
    user_id := 1, status := "banned", can_send_dm := false,
    connection_type := "local", daily_sent := 0, last_sent_date := none,
    added_at := "", updated_at := "" }

/-- The account produced by updating `staleAcc`'s status to `active`
without an override. -/
def staleAccUpdated : DMAccount :=
  { staleAcc with status := "active", can_send_dm := ("active" == "active"),
                  updated_at := "t" }

/-- A non-`active` account with a stale counter. -/
def bannedStaleAcc : DMAccount :=
  { staleAcc with daily_sent := 5, last_sent_date := some "2026-01-01" }

/-- An `active` account with a stale counter, for the C8 witness. -/
def activeStaleAcc : DMAccount :=
  { staleAcc with status := "active", can_send_dm := true, daily_sent := 3,
                  last_sent_date := some "2026-01-01" }

/-- A trivially permissive environment for the C4 witness. -/
def dmEnv0 : DMEnv :=
  ⟨12, fun _ => true, fun _ => true, fun _ => true, true, 0, 0⟩

/-- A state whose sent registry holds user 7, sent at time 100. -/
def dmSt0 : DMState := ⟨[(7, 100)], [], [], []⟩

/-- Default DM settings for the C4 witness. -/
def dmCfg0 : DMConfig := ⟨true, 9, 22, 50⟩

-- ===== IngestionPipeline: JTBot.handle_new_message =====
-- (src/jtbot.py lines 5216-5336, with FilterManager lines 382-462,
-- BlacklistManager membership, RecordManager.add_record lines 497-517)

/-- The sender of an inbound event (`event.get_sender()`). -/
structure Sender where
  id : Nat
  username : Str
  first_name : Str
  last_name : Str
  hasPhoto : Bool
deriving DecidableEq, Repr

/-- One inbound message event as `handle_new_message` reads it:
chat id, message id, text, sender, whether the sender is a `User`, and
the chat title used for the persisted record. -/
structure MsgEvent where
  chat_id : Int
  msg_id : Nat
  text : Str
  sender : Sender
  senderIsUser : Bool
  chat_title : Str
deriving DecidableEq, Repr

/-- A persisted trigger record (`RecordManager.add_record`). -/
structure TriggerRecord where
  user_id : Nat
  username : Str
  name : Str
  chat_id : Int
  chat_title : Str
  keyword : Str
  message : Str
  monitor_account : Str
deriving DecidableEq, Repr

/-- `RecordManager.add_record`: append, trimming to the last 10000. -/
def addTriggerRecord (records : List TriggerRecord) (r : TriggerRecord) :
    List TriggerRecord :=
  let rs := records ++ [r]
  if rs.length > 10000 then rs.drop (rs.length - 10000) else rs

/-- `FilterManager._estimate_account_age`: fixed id-range buckets. -/
def estimateAccountAge (user_id : Nat) : Nat :=
  if user_id < 1000000000 then 365 * 5
  else if user_id < 2000000000 then 365 * 2
  else if user_id < 5000000000 then 180
  else 30

/-- `FilterManager.check_user_filter`: first failing rule wins. -/
def checkUserFilter (noUsername noAvatar : Bool) (minAge : Nat) (u : Sender) :
    Bool × Str :=
  if noUsername && u.username.isEmpty then (false, "无用户名".data)
  else if noAvatar && !u.hasPhoto then (false, "无头像".data)
  else if 0 < minAge ∧ estimateAccountAge u.id < minAge then
    (false, "账号年龄不足".data ++ (toString minAge).data ++ "天".data)
  else (true, [])

/-- The record built at src/jtbot.py lines 5319-5328. -/
def mkTriggerRecord (ev : MsgEvent) (kw : Str) (monitor : Str) : TriggerRecord :=
  { user_id := ev.sender.id,
    username := ev.sender.username,
    name := pyStrip (ev.sender.first_name ++ [' '] ++ ev.sender.last_name),
    chat_id := ev.chat_id,
    chat_title := ev.chat_title,
    keyword := kw,
    message := ev.text,
    monitor_account := monitor }

/-- The in-memory state `handle_new_message` touches: the two TTL
caches (the dedup cache has ttl 300, the cooldown cache a configurable
ttl), the keyword set, blacklist, filter settings, counters, the
persisted trigger records, the alerts forwarded to the monitor chat
(logged as (sender id, keyword)), and the `_auto_send_dm` tasks spawned
(logged as sender ids). -/
structure BotState where
  processed_messages : List ((Int × Nat) × Int)
  cooldown_cache : List ((Nat × Str) × Int)
  cooldown_ttl : Int
  keywords : List Str
  blockedUsers : List Nat
  blockedChats : List Int
  max_message_length : Nat
  filter_no_username : Bool
  filter_no_avatar : Bool
  min_account_age_days : Nat
  stats_received : Nat
  stats_filtered : Nat
  stats_matched : Nat
  records : List TriggerRecord
  alerts : List (Nat × Str)
  dmTasks : List Nat
deriving DecidableEq, Repr

/-- The per-keyword body of the cooldown loop (src/jtbot.py lines
5282-5333): skip the keyword if (sender id, keyword) is live in the
cooldown cache, else set the cooldown, emit one alert, persist one
record, and spawn one `_auto_send_dm` task. -/
def processCooldownKw (ev : MsgEvent) (monitor : Str) (now : Int)
    (st : BotState) (kw : Str) : BotState :=
  if cacheHas st.cooldown_cache st.cooldown_ttl now (ev.sender.id, kw) then st
  else
    { st with
        cooldown_cache := cacheAdd st.cooldown_cache (ev.sender.id, kw) now,
        stats_matched := st.stats_matched + 1,
        alerts := st.alerts ++ [(ev.sender.id, kw)],
        records := addTriggerRecord st.records (mkTriggerRecord ev kw monitor),
        dmTasks := st.dmTasks ++ [ev.sender.id] }

/-- `JTBot.handle_new_message`: dedup (key inserted before any further
processing), empty-text and sender-type checks, blacklist, length
filter, keyword match, user filter, then the per-keyword cooldown
loop. -/
def handleNewMessage (st : BotState) (ev : MsgEvent) (now : Int)
    (monitor : Str) : BotState :=
  let st := { st with stats_received := st.stats_received + 1 }
  if cacheHas st.processed_messages 300 now (ev.chat_id, ev.msg_id) then st
  else
    let st := { st with
      processed_messages := cacheAdd st.processed_messages (ev.chat_id, ev.msg_id) now }
    if ev.text = [] then st
    else if !ev.senderIsUser then st
    else if st.blockedUsers.contains ev.sender.id then
      { st with stats_filtered := st.stats_filtered + 1 }
    else if st.blockedChats.contains ev.chat_id then
      { st with stats_filtered := st.stats_filtered + 1 }
    else if st.max_message_length < ev.text.length then
      { st with stats_filtered := st.stats_filtered + 1 }
    else
      let matched := keywordMatch st.keywords ev.text
      if matched = [] then st
      else if !(checkUserFilter st.filter_no_username st.filter_no_avatar
          st.min_account_age_days ev.sender).1 then
        { st with stats_filtered := st.stats_filtered + 1 }
      else
        matched.foldl (processCooldownKw ev monitor now) st

/-- A shared concrete sender, inbound event, and bot state used by the
concrete evaluations below. -/
def sender0 : Sender := ⟨1, ['u'], ['f'], ['l'], true⟩

/-- A message from `sender0` in chat 10 whose text matches both
configured keywords of `botSt0`. -/
def ev0 : MsgEvent := ⟨10, 5, ['a', 'b'], sender0, true, ['g']⟩

/-- A bot state with keywords `a` and `b`, empty caches, and all
attribute filters off. -/
def botSt0 : BotState :=
  { processed_messages := [], cooldown_cache := [], cooldown_ttl := 300,
    keywords := [['a'], ['b']], blockedUsers := [], blockedChats := [],
    max_message_length := 100, filter_no_username := false,
    filter_no_avatar := false, min_account_age_days := 0,
    stats_received := 0, stats_filtered := 0, stats_matched := 0,
    records := [], alerts := [], dmTasks := [] }

/-- `botSt0` with the dedup key of `ev0` already recorded at time 0. -/
def botSt1 : BotState :=
  { botSt0 with processed_messages := [((10, 5), 0)] }

/-- `botSt0` with a live cooldown entry for (sender 1, keyword `a`). -/
def botSt2 : BotState :=
  { botSt0 with cooldown_cache := [((1, ['a']), 0)] }

-- ===== Theorems =====

-- ===== C7 =====

lemma splitPipe_ne_nil (l : Str) : splitPipe l ≠ [] := by
  induction l with
  | nil => simp [splitPipe]
  | cons c rest ih =>
    by_cases hc : c = '|'
    · simp [splitPipe, hc]
    · simp only [splitPipe, if_neg hc]
      cases h : splitPipe rest <;> simp

lemma getD_mem_of_pos {α : Type} (l : List α) (d : α) (n : Nat)
    (h : n < l.length) : l.getD n d ∈ l := by
  induction l generalizing n with
  | nil => simp at h
  | cons x xs ih =>
    cases n with
    | zero => simp [List.getD]
    | succ m =>
      simp only [List.getD_cons_succ]
      exact List.mem_cons_of_mem _ (ih m (by simpa using h))

lemma takeWhile_append_stop {α : Type} (p : α → Bool) (l : List α) (b : α)
    (r : List α) (hall : ∀ x ∈ l, p x = true) (hb : p b = false) :
    (l ++ b :: r).takeWhile p = l := by
  induction l with
  | nil => simp [List.takeWhile, hb]
  | cons x xs ih =>
    have hx : p x = true := hall x (by simp)
    simp only [List.cons_append, List.takeWhile, hx, List.append_eq]
    rw [ih (fun y hy => hall y (by simp [hy]))]

lemma dropWhile_append_stop {α : Type} (p : α → Bool) (l : List α) (b : α)
    (r : List α) (hall : ∀ x ∈ l, p x = true) (hb : p b = false) :
    (l ++ b :: r).dropWhile p = b :: r := by
  induction l with
  | nil => simp [List.dropWhile, hb]
  | cons x xs ih =>
    have hx : p x = true := hall x (by simp)
    simp only [List.cons_append, List.dropWhile, hx, List.append_eq]
    exact ih (fun y hy => hall y (by simp [hy]))

lemma processSpintaxF_nil (f : Nat) (rand : List Nat) :
    processSpintaxF f rand [] = [] := by
  cases f <;> rfl

/-- A well-formed variant span resolves to one of the pipe-separated
alternatives of its content. -/
lemma processSpintax_span (rand : List Nat) (content : Str)
    (hall : ∀ c ∈ content, c ≠ rbrace) (hne : content ≠ []) :
    processSpintax rand (lbrace :: (content ++ [rbrace])) ∈ splitPipe content := by
  have hall' : ∀ x ∈ content, (fun x => decide (x ≠ rbrace)) x = true := by
    intro x hx
    simpa using hall x hx
  have hb : (fun x => decide (x ≠ rbrace)) rbrace = false := by simp
  have hTW := takeWhile_append_stop (fun x => decide (x ≠ rbrace))
    content rbrace [] hall' hb
  have hDW := dropWhile_append_stop (fun x => decide (x ≠ rbrace))
    content rbrace [] hall' hb
  have hlen : (lbrace :: (content ++ [rbrace])).length = content.length + 1 + 1 := by
    simp
  rw [processSpintax, hlen]
  rw [show processSpintaxF (content.length + 1 + 1) rand (lbrace :: (content ++ [rbrace]))
      = if lbrace = lbrace then
          (if (content ++ [rbrace]).takeWhile (fun x => x ≠ rbrace) ≠ [] ∧
              (content ++ [rbrace]).dropWhile (fun x => x ≠ rbrace) ≠ [] then
            (splitPipe ((content ++ [rbrace]).takeWhile (fun x => x ≠ rbrace))).getD
                ((rand.headD 0) %
                  (splitPipe ((content ++ [rbrace]).takeWhile (fun x => x ≠ rbrace))).length) []
              ++ processSpintaxF (content.length + 1) rand.tail
                  ((content ++ [rbrace]).dropWhile (fun x => x ≠ rbrace)).tail
          else lbrace :: processSpintaxF (content.length + 1) rand (content ++ [rbrace]))
        else lbrace :: processSpintaxF (content.length + 1) rand (content ++ [rbrace])
      from rfl]
  rw [if_pos rfl]
  rw [show ((content ++ [rbrace]).takeWhile fun x => x ≠ rbrace) = content from hTW]
  rw [show ((content ++ [rbrace]).dropWhile fun x => x ≠ rbrace) = rbrace :: [] from hDW]
  rw [if_pos ⟨hne, by simp⟩]
  simp only [List.tail_cons, processSpintaxF_nil, List.append_nil]
  exact getD_mem_of_pos _ _ _
    (Nat.mod_lt _ (List.length_pos.2 (splitPipe_ne_nil content)))

/-- C7: rendering applies Spintax substitution, then decoration, then
invisible padding; a `\x7b a|b \x7d` span always resolves to exactly
one of its alternatives; the padding is appended at the very end (so
never inside a variant span), consists of 6–10 characters drawn from
the 4-symbol zero-width alphabet, and increases the length by exactly
that amount beyond the decorated form. -/
theorem generateTextVariant_spec :
    (∀ (randSpin : List Nat) (rEmoji rLen : Nat) (picks : List Nat)
        (text : Str) (syn : Bool),
      generateTextVariant randSpin rEmoji rLen picks text true true syn =
        addInvisibleTimestamp rLen picks
          (addRandomEmoji rEmoji (processSpintax randSpin text))) ∧
    (∀ rand : List Nat,
      processSpintax rand [lbrace, 'a', '|', 'b', rbrace] = ['a'] ∨
      processSpintax rand [lbrace, 'a', '|', 'b', rbrace] = ['b']) ∧
    (∀ (rand : List Nat) (content : Str),
      (∀ c ∈ content, c ≠ rbrace) → content ≠ [] →
      processSpintax rand (lbrace :: (content ++ [rbrace])) ∈ splitPipe content) ∧
    (∀ (rLen : Nat) (picks : List Nat) (t : Str),
      addInvisibleTimestamp rLen picks t = t ++ invisiblePad rLen picks ∧
      (invisiblePad rLen picks).length = 6 + rLen % 5 ∧
      6 ≤ 6 + rLen % 5 ∧ 6 + rLen % 5 ≤ 10 ∧
      (addInvisibleTimestamp rLen picks t).length = t.length + (6 + rLen % 5) ∧
      ∀ c ∈ invisiblePad rLen picks, c ∈ ZERO_WIDTH) := by
  refine ⟨?_, ?_, ?_, ?_⟩
  · intro randSpin rEmoji rLen picks text syn
    rfl
  · intro rand
    have h := processSpintax_span rand ['a', '|', 'b'] (by decide) (by decide)
    have hsp : splitPipe ['a', '|', 'b'] = [['a'], ['b']] := by decide
    rw [hsp] at h
    simpa using h
  · intro rand content hall hne
    exact processSpintax_span rand content hall hne
  · intro rLen picks t
    have hmod : rLen % 5 < 5 := Nat.mod_lt _ (by decide)
    refine ⟨rfl, ?_, by omega, by omega, ?_, ?_⟩
    · simp [invisiblePad]
    · simp [addInvisibleTimestamp, invisiblePad]
    · intro c hc
      simp only [invisiblePad, List.mem_map] at hc
      obtain ⟨i, _, rfl⟩ := hc
      exact getD_mem_of_pos _ _ _ (Nat.mod_lt _ (by decide))

/-- Witness for `generateTextVariant_spec`: a concrete span resolves to
a listed alternative. -/
theorem generateTextVariant_spec_witness :
    processSpintax [0] (lbrace :: (['x', '|', 'y'] ++ [rbrace])) ∈
      splitPipe ['x', '|', 'y'] :=
  generateTextVariant_spec.2.2.1 [0] ['x', '|', 'y'] (by decide) (by decide)

/-- C6: `detect_status_from_spambot` is the spec's prioritized rule
table applied to the translated lower-cased text (geo-notice → active →
restricted → spam → banned → frozen, first match wins, otherwise
unknown); in particular a text matching both a geo-notice and a banned
phrase classifies as (`active`, can-send true), and a text matching no
category yields (`unknown`, can-send false). -/
theorem detectStatus_priority_spec :
    (∀ t : Str, detectStatusFromSpambot t = classifySpec (translateText t)) ∧
    (∀ t : Str, matchesCategory (translateText t) geoPatterns = true →
      matchesCategory (translateText t) bannedPatterns = true →
      detectStatusFromSpambot t = ("active", true)) ∧
    (∀ t : Str,
      (statusPriorityTable.all
        fun c => !(matchesCategory (translateText t) c.1)) = true →
      detectStatusFromSpambot t = ("unknown", false)) := by
  refine ⟨?_, ?_, ?_⟩
  · intro t
    simp only [detectStatusFromSpambot, classifySpec, statusPriorityTable]
    cases h1 : matchesCategory (translateText t) geoPatterns <;>
      cases h2 : matchesCategory (translateText t) activePatterns <;>
      cases h3 : matchesCategory (translateText t) restrictedPatterns <;>
      cases h4 : matchesCategory (translateText t) spamPatterns <;>
      cases h5 : matchesCategory (translateText t) bannedPatterns <;>
      cases h6 : matchesCategory (translateText t) frozenPatterns <;>
      simp [List.find?, h1, h2, h3, h4, h5, h6]
  · intro t h1 _
    simp [detectStatusFromSpambot, h1]
  · intro t hall
    simp only [statusPriorityTable, List.all_cons, List.all_nil, Bool.and_true,
      Bool.and_eq_true, Bool.not_eq_true'] at hall
    obtain ⟨h1, h2, h3, h4, h5, h6⟩ := hall
    simp [detectStatusFromSpambot, h1, h2, h3, h4, h5, h6]

/-- Witness for `detectStatus_priority_spec`: on a reply containing
both a geo-notice phrase and a banned phrase the classifier answers
(`active`, true). -/
theorem detectStatus_priority_spec_witness :
    detectStatusFromSpambot geoBannedText = ("active", true) :=
  detectStatus_priority_spec.2.1 geoBannedText (by decide) (by decide)

lemma addKwStep_cases (acc : List Str × Nat) (raw : Str) :
    addKwStep acc raw = acc ∨
      ((pyStrip raw).length ≤ 10 ∧ pyStrip raw ≠ [] ∧ pyStrip raw ∉ acc.1 ∧
        addKwStep acc raw = (acc.1 ++ [pyStrip raw], acc.2 + 1)) := by
  unfold addKwStep
  by_cases h1 : (pyStrip raw).length > 10
  · simp [h1]
  · by_cases h2 : pyStrip raw ≠ [] ∧ pyStrip raw ∉ acc.1
    · exact Or.inr ⟨by omega, h2.1, h2.2, by simp [h1, h2]⟩
    · simp [h1, h2]

lemma addKwStep_inv {acc : List Str × Nat} (h : KwInv acc.1) (raw : Str) :
    KwInv (addKwStep acc raw).1 := by
  rcases addKwStep_cases acc raw with hc | ⟨hl, hne, hnm, hc⟩
  · rw [hc]; exact h
  · rw [hc]
    obtain ⟨h10, hnd, hnil⟩ := h
    refine ⟨?_, ?_, ?_⟩
    · intro k hk
      rcases List.mem_append.1 hk with hk | hk
      · exact h10 k hk
      · simp only [List.mem_singleton] at hk; subst hk; exact hl
    · simpa [List.nodup_append] using ⟨hnd, hnm⟩
    · intro hmem
      rcases List.mem_append.1 hmem with hmem | hmem
      · exact hnil hmem
      · simp only [List.mem_singleton] at hmem; exact hne hmem.symm

lemma addKeywords_foldl_inv (batch : List Str) :
    ∀ acc : List Str × Nat, KwInv acc.1 → KwInv (batch.foldl addKwStep acc).1 := by
  induction batch with
  | nil => intro acc h; exact h
  | cons b rest ih =>
    intro acc h
    exact ih _ (addKwStep_inv h b)

lemma addKeywords_foldl_count (batch : List Str) :
    ∀ acc : List Str × Nat,
      (batch.foldl addKwStep acc).1.length + acc.2 =
        (batch.foldl addKwStep acc).2 + acc.1.length := by
  induction batch with
  | nil => intro acc; simp only [List.foldl_nil]; omega
  | cons b rest ih =>
    intro acc
    simp only [List.foldl_cons]
    rcases addKwStep_cases acc b with hc | ⟨_, _, _, hc⟩
    · rw [hc]; exact ih acc
    · rw [hc]
      have h := ih (acc.1 ++ [pyStrip b], acc.2 + 1)
      dsimp only at h
      simp only [List.length_append, List.length_singleton] at h
      omega

/-- C9: `add_keywords` rejects any keyword whose stripped form exceeds
10 characters (leaving the set unchanged), skips keywords already
present or empty after stripping, preserves the uniqueness /
length-bound invariant of the keyword set, and returns exactly the
number of keywords actually added. -/
theorem addKeywords_spec (kws batch : List Str)
    (h10 : ∀ k ∈ kws, k.length ≤ 10) (hnd : kws.Nodup) (hne : ([] : Str) ∉ kws) :
    ((∀ k ∈ (addKeywords kws batch).1, k.length ≤ 10) ∧
      (addKeywords kws batch).1.Nodup ∧ ([] : Str) ∉ (addKeywords kws batch).1 ∧
      (addKeywords kws batch).1.length = kws.length + (addKeywords kws batch).2) ∧
    (∀ b : Str, (pyStrip b).length > 10 → addKeywords kws [b] = (kws, 0)) ∧
    (∀ b : Str, pyStrip b ∈ kws ∨ pyStrip b = [] → addKeywords kws [b] = (kws, 0)) := by
  refine ⟨?_, ?_, ?_⟩
  · have hinv := addKeywords_foldl_inv batch (kws, 0) ⟨h10, hnd, hne⟩
    have hcnt := addKeywords_foldl_count batch (kws, 0)
    dsimp only at hcnt
    exact ⟨hinv.1, hinv.2.1, hinv.2.2, by unfold addKeywords; omega⟩
  · intro b hb
    simp [addKeywords, addKwStep, hb]
  · intro b hb
    have hnot : ¬ (pyStrip b ≠ [] ∧ pyStrip b ∉ kws) := by
      rcases hb with hb | hb
      · intro hcon; exact hcon.2 hb
      · intro hcon; exact hcon.1 hb
    by_cases hlen : (pyStrip b).length > 10
    · simp [addKeywords, addKwStep, hlen]
    · simp [addKeywords, addKwStep, hlen, hnot]

/-- Witness for `addKeywords_spec` at a concrete keyword set and batch. -/
theorem addKeywords_spec_witness :
    (addKeywords [['a']] [['b'], ['a']]).1.length =
      ([['a']] : List Str).length + (addKeywords [['a']] [['b'], ['a']]).2 :=
  (addKeywords_spec [['a']] [['b'], ['a']]
    (by decide) (by decide) (by decide)).1.2.2.2

/-- Counterexample to C10 as stated: after add, add, remove(1), add the
new template receives id 2, which was already assigned before (so the
id is not strictly greater than every previously assigned id), and the
stored ids `[2, 2]` are not pairwise distinct. -/
theorem addTemplate_id_reuse_cex :
    templStoreCex.map Template.id = [2, 2] ∧
    ¬ (templStoreCex.map Template.id).Nodup ∧
    (addTemplate (removeTemplate
        (addTemplatesFrom [] [("text", "a", ""), ("text", "b", "")]) 1).1
        "text" "c" "").2 = 2 := by
  decide

lemma addTemplatesFrom_map_id (specs : List (String × String × String)) :
    ∀ ts : List Template,
      (addTemplatesFrom ts specs).map Template.id =
        ts.map Template.id ++ List.range' (ts.length + 1) specs.length := by
  induction specs with
  | nil => intro ts; simp [addTemplatesFrom]
  | cons s rest ih =>
    intro ts
    obtain ⟨ty, c, now⟩ := s
    have h := ih (ts ++ [⟨ts.length + 1, ty, c, now⟩])
    simp only [addTemplatesFrom, addTemplate] at h ⊢
    rw [h]
    simp [List.range'_succ, List.append_assoc]

/-- Counterexample to C3 as stated: `add_account` on an existing phone
is a status update performed without a can-send override, yet it does
not recompute `can_send_dm`.  Re-adding the `banned` account `p1` with
status `active` leaves `can_send_dm = false` while `status = 'active'`,
so `can_send_dm == true iff status == 'active'` fails afterwards. -/
theorem addAccount_stale_canSend_cex :
    (addAccount [staleAcc] "p1" "s" "n" "u" 1 "active" "local" "t").map
        (fun a => (a.status, a.can_send_dm)) = [("active", false)] ∧
    (addAccount [staleAcc] "p1" "s" "n" "u" 1 "active" "local" "t").all
        (fun a => a.can_send_dm == (a.status == "active")) = false := by
  constructor <;> rfl

lemma getAccount_updateFirst_phone (accs : List DMAccount) (phone : String)
    (f : DMAccount → DMAccount) (hf : ∀ a, (f a).phone = a.phone) :
    getAccount (updateFirst (fun a => a.phone == phone) f accs) phone =
      (getAccount accs phone).map f := by
  induction accs with
  | nil => rfl
  | cons a rest ih =>
    by_cases h : a.phone = phone
    · simp [updateFirst, getAccount, h, hf]
    · simp [updateFirst, getAccount, h, ih]

/-- C3 (amended): `update_account_status` without an explicit override
recomputes `can_send_dm = (status == 'active')` for the updated
account, and `add_account` on a phone not yet in the pool creates the
account with `can_send_dm = (status == 'active')`; the recomputation is
however skipped by `add_account` on an already-present phone
(`addAccount_stale_canSend_cex`). -/
theorem canSend_recomputed_from_status :
    (∀ (accs : List DMAccount) (phone status now : String) (a : DMAccount),
      getAccount (updateAccountStatus accs phone status none now) phone = some a →
      a.can_send_dm = (status == "active") ∧ a.status = status) ∧
    (∀ (accs : List DMAccount) (phone sf nm un : String) (uid : Nat)
        (status ct now : String) (a : DMAccount),
      accs.all (fun x => !(x.phone == phone)) = true →
      getAccount (addAccount accs phone sf nm un uid status ct now) phone = some a →
      a.can_send_dm = (status == "active") ∧ a.status = status) := by
  constructor
  · intro accs phone status now a ha
    rw [updateAccountStatus] at ha
    rw [getAccount_updateFirst_phone accs phone
      (fun a => { a with status := status,
                         can_send_dm := (none : Option Bool).getD (status == "active"),
                         updated_at := now }) (fun _ => rfl)] at ha
    cases hx : getAccount accs phone with
    | none => rw [hx] at ha; simp at ha
    | some x =>
      rw [hx] at ha
      simp only [Option.map_some', Option.some.injEq] at ha
      subst ha
      exact ⟨rfl, rfl⟩
  · intro accs phone sf nm un uid status ct now a hall ha
    have hany : accs.any (fun a => a.phone == phone) = false := by
      simp only [List.all_eq_true] at hall
      simp only [List.any_eq_false]
      intro x hx
      simpa using hall x hx
    have hgn : ∀ l : List DMAccount, l.any (fun a => a.phone == phone) = false →
        ∀ z : List DMAccount, getAccount (l ++ z) phone = getAccount z phone := by
      intro l
      induction l with
      | nil => intro _ z; rfl
      | cons x rest ih =>
        intro hl z
        have hx : ¬ (x.phone = phone) := by
          simpa using (List.any_eq_false.1 hl) x (by simp)
        have hrest : rest.any (fun a => a.phone == phone) = false := by
          simp only [List.any_eq_false] at hl ⊢
          intro y hy
          exact hl y (by simp [hy])
        simp only [List.cons_append, getAccount, if_neg hx]
        exact ih hrest z
    rw [addAccount, hany] at ha
    simp only [Bool.false_eq_true, if_false] at ha
    rw [hgn accs hany _] at ha
    simp only [getAccount, mkFreshAccount, if_true, Option.some.injEq] at ha
    subst ha
    exact ⟨rfl, rfl⟩

/-- Witness for `canSend_recomputed_from_status`: updating the stale
account's status to `active` without an override restores the derived
field. -/
theorem canSend_recomputed_witness :
    staleAccUpdated.can_send_dm = ("active" == "active") ∧
    staleAccUpdated.status = "active" :=
  canSend_recomputed_from_status.1 [staleAcc] "p1" "active" "t"
    staleAccUpdated (by decide)

-- ===== C8 =====

lemma resetIfStale_phone (today : String) (a : DMAccount) :
    (resetIfStale today a).phone = a.phone := by
  unfold resetIfStale; split <;> rfl

lemma resetIfStale_status (today : String) (a : DMAccount) :
    (resetIfStale today a).status = a.status := by
  unfold resetIfStale; split <;> rfl

lemma resetIfStale_canSend (today : String) (a : DMAccount) :
    (resetIfStale today a).can_send_dm = a.can_send_dm := by
  unfold resetIfStale; split <;> rfl

lemma resetIfStale_date (today : String) (a : DMAccount) :
    (resetIfStale today a).last_sent_date = some today := by
  unfold resetIfStale
  split
  · next h => exact h
  · rfl

lemma getAccount_cons_of_phone {x : DMAccount} {phone : String}
    (rest : List DMAccount) (h : x.phone = phone) :
    getAccount (x :: rest) phone = some x := by
  simp [getAccount, h]

/-- Counterexample to C8 as stated: `get_available_accounts` skips
non-`active` accounts *before* the lazy daily-counter reset, so a
`banned` account inspected by the loop keeps its stale counter and
stale date — the reset is not performed "for every identity
inspected". -/
theorem getAvailable_skips_reset_cex :
    (getAvailableAccounts [bannedStaleAcc] "2026-01-02" 50).1 = [bannedStaleAcc] ∧
    bannedStaleAcc.last_sent_date ≠ some "2026-01-02" ∧
    bannedStaleAcc.daily_sent = 5 ∧
    (getAvailableAccounts [bannedStaleAcc] "2026-01-02" 50).2 = [] := by
  decide

/-- C8 (amended): `get_available_accounts` resets the daily counter of
every account that passes the status/can-send gate (non-`active`
accounts are skipped before the reset, `getAvailable_skips_reset_cex`),
and returns exactly the accounts of the updated pool whose status is
`active`, whose `can_send_dm` is true, and whose (post-reset) daily
count is below the limit; `increment_sent_count` resets first if the
date rolled over and then increments today's counter by one. -/
theorem getAvailableAccounts_spec :
    (∀ (accs : List DMAccount) (today : String) (limit : Nat),
      (getAvailableAccounts accs today limit).1 =
        accs.map (fun a =>
          if a.status == "active" && a.can_send_dm then resetIfStale today a else a) ∧
      (getAvailableAccounts accs today limit).2 =
        (getAvailableAccounts accs today limit).1.filter
          (fun a => a.status == "active" && a.can_send_dm &&
            decide (a.daily_sent < limit)) ∧
      (∀ a ∈ (getAvailableAccounts accs today limit).1,
        a.status = "active" → a.can_send_dm = true →
        a.last_sent_date = some today)) ∧
    (∀ (accs : List DMAccount) (phone today : String) (p : DMAccount),
      getAccount accs phone = some p →
      getAccount (incrementSentCount accs phone today) phone =
        some { resetIfStale today p with
                 daily_sent := (resetIfStale today p).daily_sent + 1 }) := by
  constructor
  · intro accs today limit
    refine ⟨?_, ?_, ?_⟩
    · induction accs with
      | nil => rfl
      | cons a rest ih =>
        simp only [getAvailableAccounts, List.map_cons]
        by_cases hg : (a.status == "active" && a.can_send_dm) = true
        · rw [if_pos hg, if_pos hg]
          by_cases hd : (resetIfStale today a).daily_sent < limit
          · rw [if_pos hd]; exact congrArg _ ih
          · rw [if_neg hd]; exact congrArg _ ih
        · rw [if_neg hg, if_neg hg]
          exact congrArg _ ih
    · induction accs with
      | nil => rfl
      | cons a rest ih =>
        simp only [getAvailableAccounts]
        by_cases hg : (a.status == "active" && a.can_send_dm) = true
        · rw [if_pos hg]
          have hg' : ((resetIfStale today a).status == "active" &&
              (resetIfStale today a).can_send_dm) = true := by
            rw [resetIfStale_status, resetIfStale_canSend]; exact hg
          by_cases hd : (resetIfStale today a).daily_sent < limit
          · rw [if_pos hd, List.filter_cons]
            have hpred : ((resetIfStale today a).status == "active" &&
                (resetIfStale today a).can_send_dm &&
                decide ((resetIfStale today a).daily_sent < limit)) = true := by
              rw [hg']
              simpa using hd
            rw [if_pos hpred]
            exact congrArg _ ih
          · rw [if_neg hd, List.filter_cons]
            have hpred : ((resetIfStale today a).status == "active" &&
                (resetIfStale today a).can_send_dm &&
                decide ((resetIfStale today a).daily_sent < limit)) = false := by
              rw [hg']
              simpa using hd
            rw [if_neg (by simp [hpred])]
            exact ih
        · rw [if_neg hg, List.filter_cons]
          have hpred : (a.status == "active" && a.can_send_dm &&
              decide (a.daily_sent < limit)) = false := by
            cases hgate : (a.status == "active" && a.can_send_dm) with
            | true => exact absurd hgate hg
            | false => simp [hgate]
          rw [if_neg (by simp [hpred])]
          exact ih
    · induction accs with
      | nil => intro a ha; cases ha
      | cons x rest ih =>
        intro a ha hst hcs
        simp only [getAvailableAccounts] at ha
        by_cases hg : (x.status == "active" && x.can_send_dm) = true
        · rw [if_pos hg] at ha
          by_cases hd : (resetIfStale today x).daily_sent < limit
          · rw [if_pos hd] at ha
            rcases List.mem_cons.1 ha with rfl | ha
            · exact resetIfStale_date today x
            · exact ih a ha hst hcs
          · rw [if_neg hd] at ha
            rcases List.mem_cons.1 ha with rfl | ha
            · exact resetIfStale_date today x
            · exact ih a ha hst hcs
        · rw [if_neg hg] at ha
          rcases List.mem_cons.1 ha with rfl | ha
          · exact absurd (by rw [hst, hcs]; rfl) hg
          · exact ih a ha hst hcs
  · intro accs phone today p hp
    induction accs with
    | nil => cases hp
    | cons a rest ih =>
      by_cases hx : a.phone = phone
      · have hb : (a.phone == phone) = true := by simpa using hx
        simp only [getAccount, if_pos hx] at hp
        injection hp with hpa
        subst hpa
        simp only [incrementSentCount, updateFirst]
        rw [if_pos hb]
        exact getAccount_cons_of_phone rest ((resetIfStale_phone today a).trans hx)
      · have hb : (a.phone == phone) = false := by simpa using hx
        simp only [getAccount, if_neg hx] at hp
        simp only [incrementSentCount, updateFirst]
        rw [if_neg (by simp [hb])]
        simp only [getAccount, if_neg hx]
        exact ih hp

/-- Witness for `getAvailableAccounts_spec`: incrementing the stale
`active` account on a new day resets to 0 and then counts 1. -/
theorem getAvailableAccounts_spec_witness :
    getAccount (incrementSentCount [activeStaleAcc] "p1" "2026-01-02") "p1" =
      some { resetIfStale "2026-01-02" activeStaleAcc with
               daily_sent := (resetIfStale "2026-01-02" activeStaleAcc).daily_sent + 1 } :=
  getAvailableAccounts_spec.2 [activeStaleAcc] "p1" "2026-01-02"
    activeStaleAcc (by decide)

/-- C10 (amended): under add-only usage starting from an empty store,
`add_template` assigns the 1-based consecutive ids `1, 2, …, n`, which
are pairwise distinct (and each fresh id exceeds all earlier ones); the
claimed monotonicity fails once `remove_template` is interleaved, as
`addTemplate_id_reuse_cex` shows. -/
theorem addTemplate_ids_add_only (specs : List (String × String × String)) :
    (addTemplatesFrom [] specs).map Template.id = List.range' 1 specs.length ∧
    ((addTemplatesFrom [] specs).map Template.id).Nodup := by
  have h := addTemplatesFrom_map_id specs []
  simp only [List.map_nil, List.length_nil, List.nil_append, Nat.zero_add] at h
  exact ⟨h, by rw [h]; exact List.nodup_range' _ _⟩

-- ===== C4 =====

lemma alistGet_put_self {κ : Type} [DecidableEq κ] {σ : Type}
    (l : List (κ × σ)) (k : κ) (v : σ) :
    alistGet (alistPut l k v) k = some v := by
  induction l with
  | nil => simp [alistPut, alistGet]
  | cons p rest ih =>
    obtain ⟨k', v'⟩ := p
    by_cases h : k' = k
    · simp [alistPut, alistGet, h]
    · simp [alistPut, alistGet, h, ih]

/-- A successful pick/send stage writes the sent-registry entry for the
triggering user. -/
lemma autoSendPick_success_sent (env : DMEnv) (st1 : DMState)
    (avail : List DMAccount) (uid : Nat) (un : Str) (sendTime : Int)
    (today : String) :
    (autoSendPick env st1 avail uid un sendTime today).sendSucceeded = true →
    (autoSendPick env st1 avail uid un sendTime today).state.sentUsers =
      addSentUser st1.sentUsers uid sendTime := by
  cases avail with
  | nil => intro h; simp [autoSendPick] at h
  | cons a0 tl =>
    simp only [autoSendPick]
    split
    · intro h; simp at h
    · cases htm : st1.templates with
      | nil => intro h; simp at h
      | cons t0 ts =>
        dsimp only
        split
        · intro h; simp at h
        · split
          · intro _; rfl
          · intro h; simp at h

/-- The sent-registry gate: a send call is reached only when
`is_user_sent` answered false at check time. -/
lemma autoSendDM_attempted_gate (cfg : DMConfig) (env : DMEnv) (st : DMState)
    (uid : Nat) (un : Str) (now sendTime : Int) (today : String) :
    (autoSendDM cfg env st uid un now sendTime today).sendAttempted = true →
    isUserSent st.sentUsers now uid 24 = false := by
  intro h
  by_contra hs
  rw [Bool.not_eq_false] at hs
  unfold autoSendDM at h
  rw [hs] at h
  cases hcE : cfg.enabled <;> rw [hcE] at h <;>
    by_cases hun : un = [] <;>
    simp [hun] at h

/-- A successful `_auto_send_dm` run records the user in the sent
registry with the send timestamp. -/
lemma autoSendDM_success_sent (cfg : DMConfig) (env : DMEnv) (st : DMState)
    (uid : Nat) (un : Str) (now sendTime : Int) (today : String) :
    (autoSendDM cfg env st uid un now sendTime today).sendSucceeded = true →
    (autoSendDM cfg env st uid un now sendTime today).state.sentUsers =
      addSentUser st.sentUsers uid sendTime := by
  unfold autoSendDM
  split
  · intro h; simp at h
  · split
    · intro h; simp at h
    · split
      · intro h; simp at h
      · split
        · intro h; simp at h
        · exact autoSendPick_success_sent _ _ _ _ _ _ _

/-- C4: once a send succeeded at `sendTime` the user is in the sent
registry with that timestamp; any dispatch check at a time `now` with
`now − lastSend ≤ 24h` finds `is_user_sent` true and `_auto_send_dm`
reaches no send call; once `now − lastSend > 24h` the registry check
reports the user eligible again. -/
theorem sentRegistry_reset_window :
    (∀ (cfg : DMConfig) (env : DMEnv) (st : DMState) (uid : Nat) (un : Str)
        (now sendTime : Int) (today : String) (t : Int),
      alistGet st.sentUsers uid = some t → now - t ≤ 24 * 3600 →
      (autoSendDM cfg env st uid un now sendTime today).sendAttempted = false) ∧
    (∀ (sent : List (Nat × Int)) (now : Int) (uid : Nat) (t : Int),
      alistGet sent uid = some t → now - t > 24 * 3600 →
      isUserSent sent now uid 24 = false) ∧
    (∀ (cfg : DMConfig) (env : DMEnv) (st : DMState) (uid : Nat) (un : Str)
        (now sendTime : Int) (today : String),
      (autoSendDM cfg env st uid un now sendTime today).sendSucceeded = true →
      alistGet (autoSendDM cfg env st uid un now sendTime today).state.sentUsers
        uid = some sendTime) := by
  refine ⟨?_, ?_, ?_⟩
  · intro cfg env st uid un now sendTime today t hget hle
    have hsent : isUserSent st.sentUsers now uid 24 = true := by
      unfold isUserSent
      rw [hget]
      simp only [Bool.not_eq_true', decide_eq_false_iff_not, not_lt]
      omega
    cases hAtt : (autoSendDM cfg env st uid un now sendTime today).sendAttempted with
    | false => rfl
    | true =>
      have hfalse := autoSendDM_attempted_gate cfg env st uid un now sendTime
        today hAtt
      rw [hsent] at hfalse
      simp at hfalse
  · intro sent now uid t hget hgt
    unfold isUserSent
    rw [hget]
    simp only [Bool.not_eq_false', decide_eq_true_eq]
    omega
  · intro cfg env st uid un now sendTime today hS
    rw [autoSendDM_success_sent cfg env st uid un now sendTime today hS]
    exact alistGet_put_self _ _ _

/-- Witness for `sentRegistry_reset_window`: a repeat trigger for user
7 only 100 seconds after the recorded send reaches no send call. -/
theorem sentRegistry_reset_window_witness :
    (autoSendDM dmCfg0 dmEnv0 dmSt0 7 ['u'] 200 250 "d").sendAttempted = false :=
  sentRegistry_reset_window.1 dmCfg0 dmEnv0 dmSt0 7 ['u'] 200 250 "d" 100
    (by decide) (by decide)

-- ===== C1 =====

lemma alistGet_put_ne {κ : Type} [DecidableEq κ] {σ : Type}
    (l : List (κ × σ)) (k k' : κ) (v : σ) (h : k' ≠ k) :
    alistGet (alistPut l k' v) k = alistGet l k := by
  induction l with
  | nil => simp [alistPut, alistGet, h]
  | cons p rest ih =>
    obtain ⟨a, b⟩ := p
    by_cases ha : a = k'
    · subst ha
      simp only [alistPut, if_pos rfl, alistGet]
      rw [if_neg h, if_neg h]
    · simp only [alistPut, if_neg ha, alistGet, ih]

lemma processCooldownKw_processed (ev : MsgEvent) (mon : Str) (now : Int)
    (st : BotState) (kw : Str) :
    (processCooldownKw ev mon now st kw).processed_messages =
      st.processed_messages := by
  unfold processCooldownKw
  split <;> rfl

lemma foldCooldown_processed (ev : MsgEvent) (mon : Str) (now : Int)
    (l : List Str) :
    ∀ st : BotState,
      (l.foldl (processCooldownKw ev mon now) st).processed_messages =
        st.processed_messages := by
  induction l with
  | nil => intro st; rfl
  | cons k rest ih =>
    intro st
    rw [List.foldl_cons, ih, processCooldownKw_processed]

/-- On a dedup hit `handle_new_message` only counts the received
message: no insert, no filter metric, no alert, no record, no task. -/
lemma handleNewMessage_hit (st : BotState) (ev : MsgEvent) (now : Int)
    (mon : Str)
    (h : cacheHas st.processed_messages 300 now (ev.chat_id, ev.msg_id) = true) :
    handleNewMessage st ev now mon =
      { st with stats_received := st.stats_received + 1 } := by
  unfold handleNewMessage
  dsimp only
  rw [if_pos h]

lemma handleNewMessage_miss_processed (st : BotState) (ev : MsgEvent)
    (now : Int) (mon : Str)
    (h : cacheHas st.processed_messages 300 now (ev.chat_id, ev.msg_id) = false) :
    (handleNewMessage st ev now mon).processed_messages =
      alistPut st.processed_messages (ev.chat_id, ev.msg_id) now := by
  unfold handleNewMessage
  dsimp only
  rw [if_neg (by simp [h])]
  split_ifs <;> first
    | rfl
    | (rw [foldCooldown_processed]; rfl)

lemma handleNewMessage_processed_get_preserved (st : BotState) (ev : MsgEvent)
    (now : Int) (mon : Str) (key : Int × Nat) (t1 : Int)
    (hget : alistGet st.processed_messages key = some t1)
    (hcond : (ev.chat_id, ev.msg_id) ≠ key ∨ now < t1 + 300) :
    alistGet (handleNewMessage st ev now mon).processed_messages key = some t1 := by
  by_cases h : cacheHas st.processed_messages 300 now (ev.chat_id, ev.msg_id) = true
  · rw [handleNewMessage_hit st ev now mon h]
    exact hget
  · rw [Bool.not_eq_true] at h
    rw [handleNewMessage_miss_processed st ev now mon h]
    by_cases hk : (ev.chat_id, ev.msg_id) = key
    · exfalso
      rcases hcond with hne | hlt
      · exact hne hk
      · rw [hk] at h
        unfold cacheHas at h
        rw [hget] at h
        simp [hlt] at h
    · rw [alistGet_put_ne _ _ _ _ hk]
      exact hget

lemma foldHandle_processed_get_preserved (key : Int × Nat) (t1 : Int)
    (mids : List (MsgEvent × Int × Str)) :
    ∀ s : BotState,
      alistGet s.processed_messages key = some t1 →
      (∀ m ∈ mids, (m.1.chat_id, m.1.msg_id) ≠ key ∨ m.2.1 < t1 + 300) →
      alistGet ((mids.foldl (fun s m => handleNewMessage s m.1 m.2.1 m.2.2)
          s).processed_messages) key = some t1 := by
  induction mids with
  | nil => intro s hs _; exact hs
  | cons m rest ih =>
    intro s hs hall
    rw [List.foldl_cons]
    exact ih _ (handleNewMessage_processed_get_preserved s m.1 m.2.1 m.2.2 key t1
        hs (hall m (by simp)))
      (fun x hx => hall x (by simp [hx]))

/-- C1: on a dedup hit the event is fully ignored (only the received
counter moves — no alert, record, task, filter metric, or cache
write); on a miss the key is inserted with the current time before any
further processing; consequently, of two identical (chatId, messageId)
events within the 300-second window — with arbitrary other traffic in
between (same-key traffic inside the window, any other key at any
time) — only the first is processed and the second is fully ignored. -/
theorem dedup_gate_spec :
    (∀ (st : BotState) (ev : MsgEvent) (now : Int) (mon : Str),
      cacheHas st.processed_messages 300 now (ev.chat_id, ev.msg_id) = true →
      handleNewMessage st ev now mon =
        { st with stats_received := st.stats_received + 1 }) ∧
    (∀ (st : BotState) (ev : MsgEvent) (now : Int) (mon : Str),
      cacheHas st.processed_messages 300 now (ev.chat_id, ev.msg_id) = false →
      alistGet (handleNewMessage st ev now mon).processed_messages
        (ev.chat_id, ev.msg_id) = some now) ∧
    (∀ (st : BotState) (ev : MsgEvent) (t1 : Int) (mon : Str)
        (mids : List (MsgEvent × Int × Str)) (ev2 : MsgEvent) (t2 : Int)
        (mon2 : Str),
      cacheHas st.processed_messages 300 t1 (ev.chat_id, ev.msg_id) = false →
      (∀ m ∈ mids,
        (m.1.chat_id, m.1.msg_id) ≠ (ev.chat_id, ev.msg_id) ∨ m.2.1 < t1 + 300) →
      ev2.chat_id = ev.chat_id → ev2.msg_id = ev.msg_id → t2 < t1 + 300 →
      handleNewMessage
          (mids.foldl (fun s m => handleNewMessage s m.1 m.2.1 m.2.2)
            (handleNewMessage st ev t1 mon)) ev2 t2 mon2 =
        { (mids.foldl (fun s m => handleNewMessage s m.1 m.2.1 m.2.2)
            (handleNewMessage st ev t1 mon)) with
          stats_received :=
            (mids.foldl (fun s m => handleNewMessage s m.1 m.2.1 m.2.2)
              (handleNewMessage st ev t1 mon)).stats_received + 1 }) := by
  refine ⟨?_, ?_, ?_⟩
  · exact handleNewMessage_hit
  · intro st ev now mon h
    rw [handleNewMessage_miss_processed st ev now mon h]
    exact alistGet_put_self _ _ _
  · intro st ev t1 mon mids ev2 t2 mon2 hmiss hall hc2 hm2 ht2
    have h1 : alistGet (handleNewMessage st ev t1 mon).processed_messages
        (ev.chat_id, ev.msg_id) = some t1 := by
      rw [handleNewMessage_miss_processed st ev t1 mon hmiss]
      exact alistGet_put_self _ _ _
    have hM := foldHandle_processed_get_preserved (ev.chat_id, ev.msg_id) t1
      mids _ h1 hall
    apply handleNewMessage_hit
    rw [hc2, hm2]
    unfold cacheHas
    rw [hM]
    simp [ht2]

-- ===== C2 =====

lemma processCooldownKw_skip (ev : MsgEvent) (mon : Str) (now : Int)
    (st : BotState) (kw : Str)
    (h : cacheHas st.cooldown_cache st.cooldown_ttl now (ev.sender.id, kw) = true) :
    processCooldownKw ev mon now st kw = st := by
  unfold processCooldownKw
  rw [if_pos h]

lemma processCooldownKw_emit (ev : MsgEvent) (mon : Str) (now : Int)
    (st : BotState) (kw : Str)
    (h : cacheHas st.cooldown_cache st.cooldown_ttl now (ev.sender.id, kw) = false) :
    (processCooldownKw ev mon now st kw).alerts =
        st.alerts ++ [(ev.sender.id, kw)] ∧
      (processCooldownKw ev mon now st kw).records =
        addTriggerRecord st.records (mkTriggerRecord ev kw mon) ∧
      alistGet (processCooldownKw ev mon now st kw).cooldown_cache
        (ev.sender.id, kw) = some now ∧
      (processCooldownKw ev mon now st kw).cooldown_ttl = st.cooldown_ttl := by
  unfold processCooldownKw
  rw [if_neg (by simp [h])]
  exact ⟨rfl, rfl, alistGet_put_self _ _ _, rfl⟩

lemma processCooldownKw_other (ev : MsgEvent) (mon : Str) (now : Int)
    (st : BotState) (kw' kw : Str) (h : kw' ≠ kw) :
    (processCooldownKw ev mon now st kw').alerts.count (ev.sender.id, kw) =
        st.alerts.count (ev.sender.id, kw) ∧
      alistGet (processCooldownKw ev mon now st kw').cooldown_cache
          (ev.sender.id, kw) =
        alistGet st.cooldown_cache (ev.sender.id, kw) ∧
      (processCooldownKw ev mon now st kw').cooldown_ttl = st.cooldown_ttl := by
  unfold processCooldownKw
  split
  · exact ⟨rfl, rfl, rfl⟩
  · refine ⟨?_, ?_, rfl⟩
    · dsimp only
      rw [List.count_append]
      simp [List.count_cons, h]
    · dsimp only
      exact alistGet_put_ne _ _ _ _ (by simp [h])

lemma foldCooldown_other (ev : MsgEvent) (mon : Str) (now : Int) (kw : Str)
    (l : List Str) :
    ∀ st : BotState, kw ∉ l →
      ((l.foldl (processCooldownKw ev mon now) st).alerts.count
          (ev.sender.id, kw) = st.alerts.count (ev.sender.id, kw)) ∧
      alistGet ((l.foldl (processCooldownKw ev mon now) st).cooldown_cache)
          (ev.sender.id, kw) = alistGet st.cooldown_cache (ev.sender.id, kw) ∧
      (l.foldl (processCooldownKw ev mon now) st).cooldown_ttl =
        st.cooldown_ttl := by
  induction l with
  | nil => intro st _; exact ⟨rfl, rfl, rfl⟩
  | cons kw' rest ih =>
    intro st hmem
    have hne : kw' ≠ kw := fun hc => hmem (by simp [hc])
    have hrest : kw ∉ rest := fun hc => hmem (by simp [hc])
    have hstep := processCooldownKw_other ev mon now st kw' kw hne
    have hfold := ih (processCooldownKw ev mon now st kw') hrest
    rw [List.foldl_cons]
    exact ⟨hfold.1.trans hstep.1, (hfold.2.1).trans hstep.2.1,
      (hfold.2.2).trans hstep.2.2⟩

lemma foldCooldown_exact_count (ev : MsgEvent) (mon : Str) (now : Int)
    (l : List Str) :
    ∀ st : BotState, l.Nodup → ∀ kw ∈ l,
      (l.foldl (processCooldownKw ev mon now) st).alerts.count
          (ev.sender.id, kw) =
        st.alerts.count (ev.sender.id, kw) +
          (if cacheHas st.cooldown_cache st.cooldown_ttl now
              (ev.sender.id, kw) = true then 0 else 1) := by
  induction l with
  | nil => intro st _ kw hkw; cases hkw
  | cons kw' rest ih =>
    intro st hnd kw hkw
    have hndr : rest.Nodup := (List.nodup_cons.1 hnd).2
    have hnotr : kw' ∉ rest := (List.nodup_cons.1 hnd).1
    rw [List.foldl_cons]
    rcases List.mem_cons.1 hkw with rfl | hkwr
    · by_cases hhit : cacheHas st.cooldown_cache st.cooldown_ttl now
          (ev.sender.id, kw) = true
      · rw [if_pos hhit, processCooldownKw_skip ev mon now st kw hhit]
        have hA := foldCooldown_other ev mon now kw rest st hnotr
        omega
      · rw [if_neg hhit]
        rw [Bool.not_eq_true] at hhit
        have hstep : (processCooldownKw ev mon now st kw).alerts.count
            (ev.sender.id, kw) = st.alerts.count (ev.sender.id, kw) + 1 := by
          unfold processCooldownKw
          rw [if_neg (by simp [hhit])]
          dsimp only
          rw [List.count_append]
          simp
        have hA := foldCooldown_other ev mon now kw rest
          (processCooldownKw ev mon now st kw) hnotr
        omega
    · have hne : kw' ≠ kw := fun hc => hnotr (hc ▸ hkwr)
      have hstep := processCooldownKw_other ev mon now st kw' kw hne
      have hcache : cacheHas (processCooldownKw ev mon now st kw').cooldown_cache
          (processCooldownKw ev mon now st kw').cooldown_ttl now
          (ev.sender.id, kw) =
          cacheHas st.cooldown_cache st.cooldown_ttl now (ev.sender.id, kw) := by
        unfold cacheHas
        rw [hstep.2.1, hstep.2.2]
      have := ih (processCooldownKw ev mon now st kw') hndr kw hkwr
      rw [this, hstep.1, hcache]

lemma foldCooldown_pair_preserved (ev : MsgEvent) (mon : Str) (now : Int)
    (u : Nat) (kw : Str) (t1 : Int) (l : List Str) :
    ∀ st : BotState,
      alistGet st.cooldown_cache (u, kw) = some t1 →
      now < t1 + st.cooldown_ttl →
      ((l.foldl (processCooldownKw ev mon now) st).alerts.count (u, kw) =
          st.alerts.count (u, kw)) ∧
      alistGet ((l.foldl (processCooldownKw ev mon now) st).cooldown_cache)
          (u, kw) = some t1 ∧
      (l.foldl (processCooldownKw ev mon now) st).cooldown_ttl =
        st.cooldown_ttl := by
  induction l with
  | nil => intro st hget _; exact ⟨rfl, hget, rfl⟩
  | cons kw' rest ih =>
    intro st hget hlt
    rw [List.foldl_cons]
    by_cases hpair : ((ev.sender.id : Nat), kw') = ((u : Nat), kw)
    · have hhit : cacheHas st.cooldown_cache st.cooldown_ttl now
          (ev.sender.id, kw') = true := by
        unfold cacheHas
        rw [hpair, hget]
        simp [hlt]
      rw [processCooldownKw_skip ev mon now st kw' hhit]
      exact ih st hget hlt
    · have hstep : (processCooldownKw ev mon now st kw').alerts.count (u, kw) =
            st.alerts.count (u, kw) ∧
          alistGet (processCooldownKw ev mon now st kw').cooldown_cache (u, kw) =
            alistGet st.cooldown_cache (u, kw) ∧
          (processCooldownKw ev mon now st kw').cooldown_ttl =
            st.cooldown_ttl := by
        unfold processCooldownKw
        split
        · exact ⟨rfl, rfl, rfl⟩
        · refine ⟨?_, ?_, rfl⟩
          · dsimp only
            rw [List.count_append]
            simp [List.count_cons, hpair]
          · dsimp only
            exact alistGet_put_ne _ _ _ _ hpair
      have := ih (processCooldownKw ev mon now st kw')
        (hstep.2.1.trans hget) (by rw [hstep.2.2]; exact hlt)
      exact ⟨this.1.trans hstep.1, this.2.1, this.2.2.trans hstep.2.2⟩

/-- One full `handle_new_message` call emits no alert for a
(user, keyword) pair whose cooldown entry is live at the call's time,
and leaves that entry (and the cache expiry) untouched. -/
lemma handleNewMessage_pair_preserved (st : BotState) (ev : MsgEvent)
    (now : Int) (mon : Str) (u : Nat) (kw : Str) (t1 : Int)
    (hget : alistGet st.cooldown_cache (u, kw) = some t1)
    (hlt : now < t1 + st.cooldown_ttl) :
    ((handleNewMessage st ev now mon).alerts.count (u, kw) =
        st.alerts.count (u, kw)) ∧
    alistGet (handleNewMessage st ev now mon).cooldown_cache (u, kw) =
      some t1 ∧
    (handleNewMessage st ev now mon).cooldown_ttl = st.cooldown_ttl := by
  unfold handleNewMessage
  dsimp only
  split_ifs <;> first
    | exact ⟨rfl, hget, rfl⟩
    | exact foldCooldown_pair_preserved ev mon now u kw t1 _ _ hget hlt

lemma foldHandle_pair_preserved (u : Nat) (kw : Str) (t1 : Int)
    (evs : List (MsgEvent × Int × Str)) :
    ∀ st : BotState,
      alistGet st.cooldown_cache (u, kw) = some t1 →
      (∀ m ∈ evs, m.2.1 < t1 + st.cooldown_ttl) →
      ((evs.foldl (fun s m => handleNewMessage s m.1 m.2.1 m.2.2) st).alerts.count
          (u, kw) = st.alerts.count (u, kw)) ∧
      alistGet ((evs.foldl (fun s m => handleNewMessage s m.1 m.2.1 m.2.2)
          st).cooldown_cache) (u, kw) = some t1 ∧
      (evs.foldl (fun s m => handleNewMessage s m.1 m.2.1 m.2.2)
          st).cooldown_ttl = st.cooldown_ttl := by
  induction evs with
  | nil => intro st hget _; exact ⟨rfl, hget, rfl⟩
  | cons m rest ih =>
    intro st hget hall
    have hev := handleNewMessage_pair_preserved st m.1 m.2.1 m.2.2 u kw t1 hget
      (hall m (by simp))
    have hrest := ih (handleNewMessage st m.1 m.2.1 m.2.2) hev.2.1
      (fun x hx => by rw [hev.2.2]; exact hall x (by simp [hx]))
    rw [List.foldl_cons]
    exact ⟨hrest.1.trans hev.1, hrest.2.1, hrest.2.2.trans hev.2.2⟩

/-- Witness for `dedup_gate_spec`: replaying `ev0` 10 seconds after its
key was recorded leaves everything but the received counter unchanged. -/
theorem dedup_gate_spec_witness :
    handleNewMessage botSt1 ev0 10 ['m'] =
      { botSt1 with stats_received := botSt1.stats_received + 1 } :=
  dedup_gate_spec.1 botSt1 ev0 10 ['m'] (by decide)

/-- C2: a keyword whose (senderId, keyword) cooldown entry is live is
skipped without touching the state; a non-cooled keyword emits exactly
one alert, persists exactly one record, and sets its own cooldown entry
to the current time; over the whole matched set (pairwise-distinct
keywords) each keyword contributes its own independent alert count; and
across any further events whose times lie inside a live entry's window,
no additional alert for that (user, keyword) pair is emitted and the
entry survives untouched. -/
theorem cooldown_gate_spec :
    (∀ (ev : MsgEvent) (mon : Str) (now : Int) (st : BotState) (kw : Str),
      cacheHas st.cooldown_cache st.cooldown_ttl now (ev.sender.id, kw) = true →
      processCooldownKw ev mon now st kw = st) ∧
    (∀ (ev : MsgEvent) (mon : Str) (now : Int) (st : BotState) (kw : Str),
      cacheHas st.cooldown_cache st.cooldown_ttl now (ev.sender.id, kw) = false →
      (processCooldownKw ev mon now st kw).alerts =
          st.alerts ++ [(ev.sender.id, kw)] ∧
        (processCooldownKw ev mon now st kw).records =
          addTriggerRecord st.records (mkTriggerRecord ev kw mon) ∧
        alistGet (processCooldownKw ev mon now st kw).cooldown_cache
          (ev.sender.id, kw) = some now) ∧
    (∀ (ev : MsgEvent) (mon : Str) (now : Int) (st : BotState)
        (matched : List Str),
      matched.Nodup → ∀ kw ∈ matched,
      (matched.foldl (processCooldownKw ev mon now) st).alerts.count
          (ev.sender.id, kw) =
        st.alerts.count (ev.sender.id, kw) +
          (if cacheHas st.cooldown_cache st.cooldown_ttl now
              (ev.sender.id, kw) = true then 0 else 1)) ∧
    (∀ (st : BotState) (u : Nat) (kw : Str) (t1 : Int),
      alistGet st.cooldown_cache (u, kw) = some t1 →
      ∀ evs : List (MsgEvent × Int × Str),
        (∀ m ∈ evs, m.2.1 < t1 + st.cooldown_ttl) →
        ((evs.foldl (fun s m => handleNewMessage s m.1 m.2.1 m.2.2) st).alerts.count
            (u, kw) = st.alerts.count (u, kw)) ∧
        alistGet ((evs.foldl (fun s m => handleNewMessage s m.1 m.2.1 m.2.2)
            st).cooldown_cache) (u, kw) = some t1) := by
  refine ⟨?_, ?_, ?_, ?_⟩
  · exact processCooldownKw_skip
  · intro ev mon now st kw h
    exact ⟨(processCooldownKw_emit ev mon now st kw h).1,
      (processCooldownKw_emit ev mon now st kw h).2.1,
      (processCooldownKw_emit ev mon now st kw h).2.2.1⟩
  · intro ev mon now st matched hnd kw hkw
    exact foldCooldown_exact_count ev mon now matched st hnd kw hkw
  · intro st u kw t1 hget evs hall
    exact ⟨(foldHandle_pair_preserved u kw t1 evs st hget hall).1,
      (foldHandle_pair_preserved u kw t1 evs st hget hall).2.1⟩

/-- Witness for `cooldown_gate_spec`: with the cooldown entry for
(sender 1, keyword `a`) live, the keyword is skipped and the state is
unchanged. -/
theorem cooldown_gate_spec_witness :
    processCooldownKw ev0 ['m'] 10 botSt2 ['a'] = botSt2 :=
  cooldown_gate_spec.1 ev0 ['m'] 10 botSt2 ['a'] (by decide)

-- ===== C5 =====

/-- Counterexample to C5 as stated: `asyncio.create_task(_auto_send_dm)`
sits inside the per-keyword cooldown loop (src/jtbot.py line 5333), so
one event matching two non-cooled keywords enqueues two dispatch tasks
for the same sender — not at most one. -/
theorem handleNewMessage_two_tasks_cex :
    (handleNewMessage botSt0 ev0 0 ['m']).dmTasks = [1, 1] ∧
    ¬ ((handleNewMessage botSt0 ev0 0 ['m']).dmTasks.length ≤ 1) := by
  decide

lemma foldCooldown_tasks (ev : MsgEvent) (mon : Str) (now : Int)
    (l : List Str) :
    ∀ st : BotState, ∃ k : Nat,
      (l.foldl (processCooldownKw ev mon now) st).dmTasks =
          st.dmTasks ++ List.replicate k ev.sender.id ∧
        (l.foldl (processCooldownKw ev mon now) st).alerts.length =
          st.alerts.length + k := by
  induction l with
  | nil => intro st; exact ⟨0, by simp, by simp⟩
  | cons kw rest ih =>
    intro st
    rw [List.foldl_cons]
    by_cases hhit : cacheHas st.cooldown_cache st.cooldown_ttl now
        (ev.sender.id, kw) = true
    · rw [processCooldownKw_skip ev mon now st kw hhit]
      exact ih st
    · rw [Bool.not_eq_true] at hhit
      have hT : (processCooldownKw ev mon now st kw).dmTasks =
          st.dmTasks ++ [ev.sender.id] := by
        unfold processCooldownKw
        rw [if_neg (by simp [hhit])]
      have hA : (processCooldownKw ev mon now st kw).alerts =
          st.alerts ++ [(ev.sender.id, kw)] := by
        unfold processCooldownKw
        rw [if_neg (by simp [hhit])]
      obtain ⟨k, hk1, hk2⟩ := ih (processCooldownKw ev mon now st kw)
      refine ⟨k + 1, ?_, ?_⟩
      · rw [hk1, hT, List.append_assoc]
        congr 1
      · rw [hk2, hA]
        simp only [List.length_append, List.length_singleton]
        omega

/-- C5 (amended): one `_auto_send_dm` task is enqueued per matched
keyword that passes cooldown — all for the event's sender, one per
emitted alert — so an event with k non-cooled matched keywords enqueues
k tasks rather than at most one; per-sender idempotence is enforced
downstream by the dispatch scheduler's sent-registry check, not at
enqueue time. -/
theorem dispatch_tasks_per_keyword :
    ∀ (st : BotState) (ev : MsgEvent) (now : Int) (mon : Str),
      ∃ k : Nat,
        (handleNewMessage st ev now mon).dmTasks =
            st.dmTasks ++ List.replicate k ev.sender.id ∧
          (handleNewMessage st ev now mon).alerts.length =
            st.alerts.length + k := by
  intro st ev now mon
  unfold handleNewMessage
  dsimp only
  split_ifs <;> first
    | exact foldCooldown_tasks ev mon now _ _
    | exact ⟨0, by simp, by simp⟩
